import Mathlib

/-!
Shallow embedding of `arbitragelab/auto_arima/arima_predict.py`.

A pandas `Series` is embedded as a `List (Nat × ℚ)` of (timestamp, value)
pairs.  The two external collaborators are parameters:
the ADF stationarity test (`adf_test.should_diff(s)[1]`) becomes
`test : List ℚ → Except PyErr Bool` (`true` = "should difference further",
an `.error` models the test raising), and the pmdarima order search /
model becomes `autoArima : SearchArgs → Except PyErr M` together with
`ArimaOps M` providing `fitPredict` (the in-place `fit_predict`,
refit on a context and produce a one-step forecast) and `predictOne`
(`model.predict(n_periods=1)[0]`, no refit).

Python exceptions are embedded as `Except PyErr`; `PyErr.attributeError`
is the `AttributeError` raised when a `None` field is used as an object.
-/

/-- Errors raised by the Python code or its collaborators. -/
inductive PyErr where
  /-- `AttributeError`: a `None` field (`arima_model` or `y_train`) used as an object. -/
  | attributeError : PyErr
  /-- An exception raised by the stationarity-test collaborator. -/
  | statTestError : Nat → PyErr
  /-- An exception raised by the order-search / model-fit collaborator. -/
  | fitError : Nat → PyErr
  /-- Modelling artifact: the unbounded `while` loop of `get_trend_order`
  cut off by fuel exhaustion (the Python loop would still be running). -/
  | fuelExhausted : PyErr
deriving DecidableEq, Repr

/-- The values of a series, `series.values`. -/
def seriesValues (l : List (Nat × ℚ)) : List ℚ := l.map Prod.snd

/-- One application of `series.diff().dropna()` on the values of a series:
`diff[i] = x[i+1] - x[i]`, the leading NaN dropped. -/
def diffOnce (xs : List ℚ) : List ℚ := (xs.zip xs.tail).map fun p => p.2 - p.1

/-- `n` successive applications of `diff().dropna()`, as performed by the
`for _ in range(order)` loop of `get_trend_order`. -/
def diffN : Nat → List ℚ → List ℚ
  | 0, xs => xs
  | n + 1, xs => diffN n (diffOnce xs)

/-- `get_trend_order` of `arima_predict.py`: starting from `order`, test the
series differenced `order` times; if the test says no further differencing is
needed return `order`, otherwise move to `order + 1`.  The Python `while` loop
has no bound; `fuel` makes the recursion structural, with
`PyErr.fuelExhausted` standing for a still-running loop. -/
def get_trend_order (test : List ℚ → Except PyErr Bool) (y : List ℚ) :
    Nat → Nat → Except PyErr Nat
  | 0, _ => .error .fuelExhausted
  | fuel + 1, order =>
    match test (diffN order y) with
    | .error e => .error e
    | .ok true => get_trend_order test y fuel (order + 1)
    | .ok false => .ok order

/-- The argument record of one `auto_arima(...)` call, mirroring the keyword
arguments passed at line 63 of the source. -/
structure SearchArgs where
  y : List (Nat × ℚ)
  d : Nat
  start_p : Nat
  start_q : Nat
  max_p : Nat
  max_q : Nat
  max_order : Nat
  trace : Bool
deriving DecidableEq, Repr

/-- The `AutoARIMAForecast` object: search bounds from `__init__`, plus the
`arima_model` and `y_train` fields, both `None` until a successful fit. -/
structure AutoARIMAForecast (M : Type) where
  start_p : Nat
  start_q : Nat
  max_p : Nat
  max_q : Nat
  arima_model : Option M
  y_train : Option (List (Nat × ℚ))
deriving DecidableEq, Repr

/-- `AutoARIMAForecast.__init__`: model and training history start as `None`. -/
def AutoARIMAForecast.init (M : Type) (start_p start_q max_p max_q : Nat) :
    AutoARIMAForecast M :=
  ⟨start_p, start_q, max_p, max_q, none, none⟩

/-- `AutoARIMAForecast.get_best_arima_model`: compute the trend order, store a
copy of the training series as `y_train`, and call `auto_arima` with the
bounds from the config and `max_order = max_q + max_p + trend_order`,
storing the result as `arima_model`.  The returned list logs the
`auto_arima` calls made (exactly one on success).  On an error from a
collaborator the `Except` carries only the error (the Python object would
keep any field already assigned before the raise). -/
def AutoARIMAForecast.get_best_arima_model {M : Type}
    (autoArima : SearchArgs → Except PyErr M)
    (test : List ℚ → Except PyErr Bool) (fuel : Nat)
    (self : AutoARIMAForecast M) (y_train : List (Nat × ℚ)) (verbose : Bool) :
    Except PyErr (AutoARIMAForecast M × List SearchArgs) :=
  match get_trend_order test (seriesValues y_train) fuel 0 with
  | .error e => .error e
  | .ok trend_order =>
    match autoArima ⟨y_train, trend_order, self.start_p, self.start_q, self.max_p,
        self.max_q, self.max_q + self.max_p + trend_order, verbose⟩ with
    | .error e => .error e
    | .ok m =>
      .ok ({ self with y_train := some y_train, arima_model := some m },
        [⟨y_train, trend_order, self.start_p, self.start_q, self.max_p,
          self.max_q, self.max_q + self.max_p + trend_order, verbose⟩])

/-- The operations of a fitted pmdarima model used by `predict`. -/
structure ArimaOps (M : Type) where
  /-- `model.fit_predict(context, n_periods=1)[0]`: refit on `context`
  (replacing the model state) and return the one-step-ahead forecast. -/
  fitPredict : M → List (Nat × ℚ) → Except PyErr (M × ℚ)
  /-- `model.predict(n_periods=1)[0]`: forecast from the current fit, no refit. -/
  predictOne : M → ℚ

/-- `prediction.loc[t] = v`: set the value of every entry labelled `t`. -/
def setLoc (t : Nat) (v : ℚ) (pred : List (Nat × Option ℚ)) :
    List (Nat × Option ℚ) :=
  pred.map fun p => if p.1 = t then (p.1, some v) else p

/-- `xs.iloc[-w:]` for a non-negative `w`: the last `w` entries, the whole
list when `w` exceeds the length — and also when `w = 0`, since Python's
`xs[-0:]` is `xs[0:]`. -/
def ilocLast {α : Type} (w : Nat) (xs : List α) : List α :=
  if w = 0 then xs else xs.drop (xs.length - w)

/-- The training context built for the retrain at loop index `i`:
`self.y_train.append(y.iloc[:i - 1])` when `train_window` is `None`,
`self.y_train.iloc[-train_window:].append(y.iloc[:i - 1])` otherwise. -/
def buildCtx (hist : List (Nat × ℚ)) (tw : Option Nat) (y : List (Nat × ℚ))
    (i : Nat) : List (Nat × ℚ) :=
  match tw with
  | none => hist ++ y.take (i - 1)
  | some w => ilocLast w hist ++ y.take (i - 1)

/-- `pd.Series(index=y.index, dtype=np.float)`: an all-NaN series over the
out-of-sample index (NaN embedded as `none`). -/
def initPred (y : List (Nat × ℚ)) : List (Nat × Option ℚ) :=
  y.map fun p => (p.1, (none : Option ℚ))

/-- The timestamp used at loop index `i`, `y.index[i]`
(the loop keeps `i` in range, so the default is never read). -/
def stepT (y : List (Nat × ℚ)) (i : Nat) : Nat := (y.getD i (0, 0)).1

/-- The loop `for i in range(1, y.shape[0])` of `predict`, with `steps`
remaining iterations, current index `i`, current model `m`
(`self.arima_model`), retrain counter `ridx` and the prediction series
`pred` being filled in.  Returns the final model, the prediction series and
an instrumentation trace listing each retrain as (loop index, context passed
to `fit_predict`), in loop order.  Python evaluates the
`self.arima_model.fit_predict` / `.predict` attribute before its arguments,
so a `None` model (and then a `None` `y_train`) raises `AttributeError`. -/
def predictAux {M : Type} (ops : ArimaOps M) (yt : Option (List (Nat × ℚ)))
    (tw : Option Nat) (y : List (Nat × ℚ)) (rfreq : Nat) :
    Nat → Nat → Option M → Nat → List (Nat × Option ℚ) →
    Except PyErr (Option M × List (Nat × Option ℚ) × List (Nat × List (Nat × ℚ)))
  | 0, _, m, _, pred => .ok (m, pred, [])
  | steps + 1, i, m, ridx, pred =>
    if rfreq ≤ ridx then
      match m with
      | none => .error .attributeError
      | some mm =>
        match yt with
        | none => .error .attributeError
        | some hist =>
          match ops.fitPredict mm (buildCtx hist tw y i) with
          | .error e => .error e
          | .ok (m2, v) =>
            match predictAux ops yt tw y rfreq steps (i + 1) (some m2) 1
                (setLoc (stepT y i) v pred) with
            | .error e => .error e
            | .ok (mf, predf, tr) =>
              .ok (mf, predf, (i, buildCtx hist tw y i) :: tr)
    else
      match m with
      | none => .error .attributeError
      | some mm =>
        predictAux ops yt tw y rfreq steps (i + 1) m (ridx + 1)
          (setLoc (stepT y i) (ops.predictOne mm) pred)

/-- `AutoARIMAForecast.predict`: initialise the all-NaN prediction over
`y.index`, run the loop from `i = 1` with retrain counter `0`, and return
the object with its (possibly refitted) model, the prediction series, and
the retrain trace. -/
def AutoARIMAForecast.predict {M : Type} (ops : ArimaOps M)
    (self : AutoARIMAForecast M) (y : List (Nat × ℚ)) (retrain_freq : Nat)
    (train_window : Option Nat) :
    Except PyErr
      (AutoARIMAForecast M × List (Nat × Option ℚ) × List (Nat × List (Nat × ℚ))) :=
  match predictAux ops self.y_train train_window y retrain_freq
      (y.length - 1) 1 self.arima_model 0 (initPred y) with
  | .error e => .error e
  | .ok (mf, pred, tr) => .ok ({ self with arima_model := mf }, pred, tr)

/-- Pure description of the retrain trace produced by `predictAux` when it
returns successfully: same branching on the retrain counter, no model. -/
def traceSpec (hist : List (Nat × ℚ)) (tw : Option Nat) (y : List (Nat × ℚ))
    (rfreq : Nat) : Nat → Nat → Nat → List (Nat × List (Nat × ℚ))
  | 0, _, _ => []
  | steps + 1, i, ridx =>
    if rfreq ≤ ridx then
      (i, buildCtx hist tw y i) :: traceSpec hist tw y rfreq steps (i + 1) 1
    else
      traceSpec hist tw y rfreq steps (i + 1) (ridx + 1)

/-- Apply a sequence of `prediction.loc[t] = v` assignments in order. -/
def applyLocs (pred : List (Nat × Option ℚ)) (l : List (Nat × ℚ)) :
    List (Nat × Option ℚ) :=
  l.foldl (fun acc tv => setLoc tv.1 tv.2 acc) pred

/-- Concrete fitter over model type `Nat` used in closed evaluations:
a refit bumps the model and forecasts the context length, a plain forecast
returns the model value. -/
def ops0 : ArimaOps Nat :=
  ⟨fun m ctx => .ok (m + 1, (ctx.length : ℚ)), fun m => (m : ℚ)⟩

/-- Concrete fitter whose refit always raises. -/
def opsE : ArimaOps Nat :=
  ⟨fun _ _ => .error (.fitError 7), fun m => (m : ℚ)⟩

/-- A forecaster in the state after a successful fit on history `[(0, 1)]`. -/
def fEx : AutoARIMAForecast Nat := ⟨0, 0, 5, 5, some 0, some [(0, 1)]⟩

/-- A three-point out-of-sample series. -/
def yEx : List (Nat × ℚ) := [(10, 1), (11, 2), (12, 3)]

/-- Concrete stationarity test: "difference further" while the series has
at least three points. -/
def testW : List ℚ → Except PyErr Bool := fun xs => .ok (decide (3 ≤ xs.length))

/-- Concrete stationarity test that raises once the series gets short. -/
def testE : List ℚ → Except PyErr Bool := fun xs =>
  if 3 ≤ xs.length then .ok true else .error (.statTestError 3)

/-- Concrete order search returning the difference order as the model. -/
def autoW : SearchArgs → Except PyErr Nat := fun a => .ok a.d

/-- A three-point training series. -/
def yTrW : List (Nat × ℚ) := [(0, 1), (1, 2), (2, 4)]

theorem setLoc_map_fst (t : Nat) (v : ℚ) (l : List (Nat × Option ℚ)) :
    (setLoc t v l).map Prod.fst = l.map Prod.fst := by
  simp only [setLoc, List.map_map]
  apply List.map_congr_left
  intro p _
  by_cases hp : p.1 = t <;> simp [hp]

theorem setLoc_getElem? (t : Nat) (v : ℚ) (l : List (Nat × Option ℚ)) (j : Nat) :
    (setLoc t v l)[j]? = (l[j]?).map fun p => if p.1 = t then (p.1, some v) else p := by
  simp [setLoc, List.getElem?_map]

theorem ilocLast_of_le {α : Type} (w : Nat) (xs : List α) (h : xs.length ≤ w) :
    ilocLast w xs = xs := by
  unfold ilocLast
  by_cases hw : w = 0
  · simp [hw]
  · simp [hw, Nat.sub_eq_zero_of_le h]

theorem ilocLast_subset {α : Type} (w : Nat) (xs : List α) :
    ilocLast w xs ⊆ xs := by
  unfold ilocLast
  by_cases hw : w = 0
  · simp [hw]
  · simp [hw, List.drop_subset]

theorem initPred_map_fst (y : List (Nat × ℚ)) :
    (initPred y).map Prod.fst = y.map Prod.fst := by
  simp [initPred, List.map_map]

theorem initPred_getElem? (y : List (Nat × ℚ)) (j : Nat) :
    (initPred y)[j]? = (y[j]?).map fun p => (p.1, (none : Option ℚ)) := by
  simp [initPred, List.getElem?_map]

theorem predictAux_trace {M : Type} (ops : ArimaOps M) (hist : List (Nat × ℚ))
    (tw : Option Nat) (y : List (Nat × ℚ)) (k : Nat) :
    ∀ steps i m r pred res,
      predictAux ops (some hist) tw y k steps i m r pred = .ok res →
      res.2.2 = traceSpec hist tw y k steps i r := by
  intro steps
  induction steps with
  | zero =>
    intro i m r pred res h
    simp only [predictAux] at h
    cases h
    simp [traceSpec]
  | succ n ih =>
    intro i m r pred res h
    by_cases hr : k ≤ r
    · simp only [predictAux, if_pos hr] at h
      cases m with
      | none => exact absurd h (by simp)
      | some mm =>
        dsimp only at h
        cases hfp : ops.fitPredict mm (buildCtx hist tw y i) with
        | error e => rw [hfp] at h; exact absurd h (by simp)
        | ok mv =>
          obtain ⟨m2, v⟩ := mv
          rw [hfp] at h
          dsimp only at h
          cases hrec : predictAux ops (some hist) tw y k n (i + 1) (some m2) 1
              (setLoc (stepT y i) v pred) with
          | error e => rw [hrec] at h; exact absurd h (by simp)
          | ok res2 =>
            rw [hrec] at h
            dsimp only at h
            cases h
            simp only [traceSpec, if_pos hr]
            have := ih (i + 1) (some m2) 1 (setLoc (stepT y i) v pred) res2 hrec
            simp [this]
    · simp only [predictAux, if_neg hr] at h
      cases m with
      | none => exact absurd h (by simp)
      | some mm =>
        simp only [traceSpec, if_neg hr]
        exact ih (i + 1) (some mm) (r + 1)
          (setLoc (stepT y i) (ops.predictOne mm) pred) res h

theorem applyLocs_cons (pred : List (Nat × Option ℚ)) (t : Nat) (v : ℚ)
    (l : List (Nat × ℚ)) :
    applyLocs pred ((t, v) :: l) = applyLocs (setLoc t v pred) l := rfl

theorem applyLocs_map_fst (l : List (Nat × ℚ)) :
    ∀ pred, (applyLocs pred l).map Prod.fst = pred.map Prod.fst := by
  induction l with
  | nil => intro pred; rfl
  | cons tv rest ih =>
    intro pred
    rw [show applyLocs pred (tv :: rest) = applyLocs (setLoc tv.1 tv.2 pred) rest from rfl,
      ih, setLoc_map_fst]

theorem applyLocs_untouched (l : List (Nat × ℚ)) :
    ∀ (pred : List (Nat × Option ℚ)) (j : Nat) (p : Nat × Option ℚ),
      pred[j]? = some p → (∀ tv ∈ l, tv.1 ≠ p.1) →
      (applyLocs pred l)[j]? = some p := by
  induction l with
  | nil => intro pred j p hp _; exact hp
  | cons tv rest ih =>
    intro pred j p hp hne
    rw [show applyLocs pred (tv :: rest) = applyLocs (setLoc tv.1 tv.2 pred) rest from rfl]
    apply ih _ _ _ _ (fun u hu => hne u (List.mem_cons_of_mem _ hu))
    rw [setLoc_getElem?, hp]
    have : p.1 ≠ tv.1 := fun hcon => hne tv (List.mem_cons_self _ _) hcon.symm
    simp [this]

theorem applyLocs_assigned (l : List (Nat × ℚ)) :
    ∀ (pred : List (Nat × Option ℚ)) (j : Nat) (p : Nat × Option ℚ),
      pred[j]? = some p → (∃ tv ∈ l, tv.1 = p.1) →
      ∃ w, (applyLocs pred l)[j]? = some (p.1, some w) := by
  induction l with
  | nil => intro pred j p _ hex; simp at hex
  | cons tv rest ih =>
    intro pred j p hp hex
    rw [show applyLocs pred (tv :: rest) = applyLocs (setLoc tv.1 tv.2 pred) rest from rfl]
    by_cases htail : ∃ u ∈ rest, u.1 = p.1
    · have hp2 : (setLoc tv.1 tv.2 pred)[j]? =
          some (if p.1 = tv.1 then (p.1, some tv.2) else p) := by
        rw [setLoc_getElem?, hp]; rfl
      by_cases hhd : p.1 = tv.1
      · rw [if_pos hhd] at hp2
        obtain ⟨w, hw⟩ := ih (setLoc tv.1 tv.2 pred) j (p.1, some tv.2) hp2
          (by simpa using htail)
        exact ⟨w, hw⟩
      · rw [if_neg hhd] at hp2
        exact ih (setLoc tv.1 tv.2 pred) j p hp2 htail
    · have hhd : tv.1 = p.1 := by
        rcases hex with ⟨u, hu, hu1⟩
        rcases List.mem_cons.mp hu with h1 | h2
        · rw [← h1]; exact hu1
        · exact absurd ⟨u, h2, hu1⟩ htail
      have hp2 : (setLoc tv.1 tv.2 pred)[j]? = some (p.1, some tv.2) := by
        rw [setLoc_getElem?, hp]
        simp [hhd.symm]
      refine ⟨tv.2, applyLocs_untouched rest _ _ _ hp2 ?_⟩
      intro u hu hcon
      exact htail ⟨u, hu, hcon⟩

theorem predictAux_pred_shape {M : Type} (ops : ArimaOps M)
    (yt : Option (List (Nat × ℚ))) (tw : Option Nat) (y : List (Nat × ℚ))
    (k : Nat) :
    ∀ steps i m r pred res,
      predictAux ops yt tw y k steps i m r pred = .ok res →
      ∃ vs : List ℚ, vs.length = steps ∧
        res.2.1 = applyLocs pred
          (((List.range steps).map fun s => stepT y (i + s)).zip vs) := by
  intro steps
  induction steps with
  | zero =>
    intro i m r pred res h
    simp only [predictAux] at h
    cases h
    exact ⟨[], rfl, rfl⟩
  | succ n ih =>
    intro i m r pred res h
    have key : ∀ v : ℚ, ∀ vs : List ℚ, vs.length = n →
        applyLocs (setLoc (stepT y i) v pred)
            (((List.range n).map fun s => stepT y (i + 1 + s)).zip vs) =
          applyLocs pred
            (((List.range (n + 1)).map fun s => stepT y (i + s)).zip (v :: vs)) := by
      intro v vs _
      rw [List.range_succ_eq_map]
      simp only [List.map_cons, List.map_map, Nat.add_zero, List.zip_cons_cons,
        applyLocs_cons]
      congr 2
      apply List.map_congr_left
      intro s _
      simp only [Function.comp]
      congr 1
      omega
    by_cases hr : k ≤ r
    · simp only [predictAux, if_pos hr] at h
      cases m with
      | none => exact absurd h (by simp)
      | some mm =>
        dsimp only at h
        cases yt with
        | none => exact absurd h (by simp)
        | some hist =>
          dsimp only at h
          cases hfp : ops.fitPredict mm (buildCtx hist tw y i) with
          | error e => rw [hfp] at h; exact absurd h (by simp)
          | ok mv =>
            obtain ⟨m2, v⟩ := mv
            rw [hfp] at h
            dsimp only at h
            cases hrec : predictAux ops (some hist) tw y k n (i + 1) (some m2) 1
                (setLoc (stepT y i) v pred) with
            | error e => rw [hrec] at h; exact absurd h (by simp)
            | ok res2 =>
              rw [hrec] at h
              dsimp only at h
              cases h
              obtain ⟨vs, hlen, hshape⟩ := ih (i + 1) (some m2) 1
                (setLoc (stepT y i) v pred) res2 hrec
              exact ⟨v :: vs, by simp [hlen], by rw [show ((res2.1, res2.2.1,
                (i, buildCtx hist tw y i) :: res2.2.2) :
                Option M × List (Nat × Option ℚ) × List (Nat × List (Nat × ℚ))).2.1
                = res2.2.1 from rfl, hshape, key v vs hlen]⟩
    · simp only [predictAux, if_neg hr] at h
      cases m with
      | none => exact absurd h (by simp)
      | some mm =>
        dsimp only at h
        obtain ⟨vs, hlen, hshape⟩ := ih (i + 1) (some mm) (r + 1)
          (setLoc (stepT y i) (ops.predictOne mm) pred) res h
        exact ⟨ops.predictOne mm :: vs, by simp [hlen],
          by rw [hshape, key (ops.predictOne mm) vs hlen]⟩

theorem traceSpec_mem (hist : List (Nat × ℚ)) (tw : Option Nat)
    (y : List (Nat × ℚ)) (k : Nat) :
    ∀ steps i r p, p ∈ traceSpec hist tw y k steps i r →
      p.2 = buildCtx hist tw y p.1 ∧ i ≤ p.1 ∧ p.1 < i + steps := by
  intro steps
  induction steps with
  | zero => intro i r p hp; simp [traceSpec] at hp
  | succ n ih =>
    intro i r p hp
    by_cases hr : k ≤ r
    · simp only [traceSpec, if_pos hr] at hp
      rcases List.mem_cons.mp hp with h1 | h2
      · subst h1; exact ⟨rfl, le_refl _, by omega⟩
      · obtain ⟨ha, hb, hc⟩ := ih (i + 1) 1 p h2
        exact ⟨ha, by omega, by omega⟩
    · simp only [traceSpec, if_neg hr] at hp
      obtain ⟨ha, hb, hc⟩ := ih (i + 1) (r + 1) p hp
      exact ⟨ha, by omega, by omega⟩

theorem filter_range_common (c c' : Nat → Bool) (hcc : ∀ t, c' t = c (t + 1))
    (i n : Nat) :
    (((List.range n).map Nat.succ).filter c).map (· + i) =
      ((List.range n).filter c').map (· + (i + 1)) := by
  rw [List.filter_map, List.map_map]
  have h1 : List.filter (c ∘ Nat.succ) (List.range n) =
      List.filter c' (List.range n) :=
    List.filter_congr fun t _ => ((hcc t).symm : (c ∘ Nat.succ) t = c' t)
  rw [h1]
  apply List.map_congr_left
  intro t _
  simp only [Function.comp_apply]
  omega

theorem filter_range_shift_pos (c c' : Nat → Bool) (hcc : ∀ t, c' t = c (t + 1))
    (h0 : c 0 = true) (i n : Nat) :
    ((List.range (n + 1)).filter c).map (· + i) =
      i :: ((List.range n).filter c').map (· + (i + 1)) := by
  rw [List.range_succ_eq_map, List.filter_cons, h0]
  simp only [if_true, List.map_cons, Nat.zero_add]
  rw [filter_range_common c c' hcc i n]

theorem filter_range_shift_neg (c c' : Nat → Bool) (hcc : ∀ t, c' t = c (t + 1))
    (h0 : c 0 = false) (i n : Nat) :
    ((List.range (n + 1)).filter c).map (· + i) =
      ((List.range n).filter c').map (· + (i + 1)) := by
  rw [List.range_succ_eq_map, List.filter_cons, h0]
  simp only [Bool.false_eq_true, if_false]
  rw [filter_range_common c c' hcc i n]

theorem traceSpec_map_fst (hist : List (Nat × ℚ)) (tw : Option Nat)
    (y : List (Nat × ℚ)) (k : Nat) (hk : 1 ≤ k) :
    ∀ steps i r, r ≤ k →
      (traceSpec hist tw y k steps i r).map Prod.fst =
        ((List.range steps).filter fun t => decide ((t + r) % k = 0 ∧ k ≤ t + r)).map
          (· + i) := by
  intro steps
  induction steps with
  | zero => intro i r _; simp [traceSpec]
  | succ n ih =>
    intro i r hrk
    by_cases hr : k ≤ r
    · have hreq : r = k := le_antisymm hrk hr
      rw [filter_range_shift_pos _
        (fun t => decide ((t + 1) % k = 0 ∧ k ≤ t + 1))
        (by
          intro t
          show decide ((t + 1) % k = 0 ∧ k ≤ t + 1) =
            decide ((t + 1 + r) % k = 0 ∧ k ≤ t + 1 + r)
          rw [hreq, Nat.add_mod_right]
          apply decide_eq_decide.mpr
          constructor
          · rintro ⟨hm, -⟩
            exact ⟨hm, Nat.le_add_left k (t + 1)⟩
          · rintro ⟨hm, -⟩
            exact ⟨hm, Nat.le_of_dvd (by omega) (Nat.dvd_of_mod_eq_zero hm)⟩)
        (by
          show decide ((0 + r) % k = 0 ∧ k ≤ 0 + r) = true
          rw [hreq]
          simp)]
      simp only [traceSpec, if_pos hr, List.map_cons]
      rw [ih (i + 1) 1 hk]
    · have hlt : r < k := lt_of_not_le hr
      rw [filter_range_shift_neg _
        (fun t => decide ((t + (r + 1)) % k = 0 ∧ k ≤ t + (r + 1)))
        (by
          intro t
          show decide ((t + (r + 1)) % k = 0 ∧ k ≤ t + (r + 1)) =
            decide ((t + 1 + r) % k = 0 ∧ k ≤ t + 1 + r)
          rw [show t + (r + 1) = t + 1 + r from by omega])
        (by
          show decide ((0 + r) % k = 0 ∧ k ≤ 0 + r) = false
          simp only [Nat.zero_add, decide_eq_false_iff_not]
          rintro ⟨-, hc⟩
          omega)]
      simp only [traceSpec, if_neg hr]
      rw [ih (i + 1) (r + 1) (by omega)]

theorem length_filter_multiples (k : Nat) (hk : 1 ≤ k) :
    ∀ n : Nat,
      ((List.range n).filter fun t => decide (t % k = 0 ∧ k ≤ t)).length =
        (n - 1) / k := by
  intro n
  induction n with
  | zero => simp
  | succ m ih =>
    rw [List.range_succ, List.filter_append, List.length_append, ih]
    by_cases hc : m % k = 0 ∧ k ≤ m
    · have hm1 : 1 ≤ m := le_trans hk hc.2
      have hstep : (m - 1 + 1) / k = (m - 1) / k + 1 := by
        rw [Nat.succ_div]
        have : k ∣ m - 1 + 1 := by
          rw [show m - 1 + 1 = m from by omega]
          exact Nat.dvd_of_mod_eq_zero hc.1
        simp [this]
      have hgoal : (m + 1 - 1) / k = (m - 1) / k + 1 := by
        rw [show m + 1 - 1 = m - 1 + 1 from by omega]
        exact hstep
      rw [hgoal]
      simp [hc]
    · by_cases hm0 : m = 0
      · subst hm0
        have hne : (decide ((0 : Nat) % k = 0 ∧ k ≤ 0)) = false := by
          simp only [Nat.zero_mod, decide_eq_false_iff_not]
          rintro ⟨-, hc2⟩
          omega
        simp [List.filter_cons, hne]
        omega
      · have hnd : ¬ k ∣ m := by
          rintro ⟨c, rfl⟩
          exact hc ⟨Nat.mul_mod_right k c, Nat.le_of_dvd (by omega) ⟨c, rfl⟩⟩
        have hstep : (m - 1 + 1) / k = (m - 1) / k := by
          rw [Nat.succ_div]
          have : ¬ k ∣ m - 1 + 1 := by
            rw [show m - 1 + 1 = m from by omega]
            exact hnd
          simp [this]
        rw [show m + 1 - 1 = m - 1 + 1 from by omega, hstep]
        simp [hc]

theorem predict_ok_elim {M : Type} (ops : ArimaOps M) (f : AutoARIMAForecast M)
    (y : List (Nat × ℚ)) (k : Nat) (tw : Option Nat)
    (f2 : AutoARIMAForecast M) (pred : List (Nat × Option ℚ))
    (tr : List (Nat × List (Nat × ℚ)))
    (h : AutoARIMAForecast.predict ops f y k tw = .ok (f2, pred, tr)) :
    ∃ mf,
      predictAux ops f.y_train tw y k (y.length - 1) 1 f.arima_model 0 (initPred y)
        = .ok (mf, pred, tr) ∧ f2 = { f with arima_model := mf } := by
  unfold AutoARIMAForecast.predict at h
  cases hone : predictAux ops f.y_train tw y k (y.length - 1) 1 f.arima_model 0
      (initPred y) with
  | error e => rw [hone] at h; exact absurd h (by simp)
  | ok res =>
    rw [hone] at h
    obtain ⟨mf, pr, tr2⟩ := res
    dsimp only at h
    rw [Except.ok.injEq, Prod.mk.injEq, Prod.mk.injEq] at h
    obtain ⟨h1, h2, h3⟩ := h
    exact ⟨mf, by rw [h2, h3], h1.symm⟩

theorem get_trend_order_ok (test : List ℚ → Except PyErr Bool) (y : List ℚ) :
    ∀ fuel order d, get_trend_order test y fuel order = .ok d →
      order ≤ d ∧ test (diffN d y) = .ok false ∧
        ∀ e, order ≤ e → e < d → test (diffN e y) = .ok true := by
  intro fuel
  induction fuel with
  | zero => intro order d h; exact absurd h (by simp [get_trend_order])
  | succ n ih =>
    intro order d h
    unfold get_trend_order at h
    cases ht : test (diffN order y) with
    | error e => rw [ht] at h; exact absurd h (by simp)
    | ok b =>
      rw [ht] at h
      cases b with
      | true =>
        dsimp only at h
        obtain ⟨h1, h2, h3⟩ := ih (order + 1) d h
        refine ⟨by omega, h2, fun e he1 he2 => ?_⟩
        by_cases heo : e = order
        · rw [heo]; exact ht
        · exact h3 e (by omega) he2
      | false =>
        dsimp only at h
        cases h
        exact ⟨le_refl _, ht, fun e he1 he2 => absurd he2 (by omega)⟩

theorem get_trend_order_stationary (test : List ℚ → Except PyErr Bool)
    (y : List ℚ) (fuel : Nat) (hfuel : 1 ≤ fuel)
    (hstat : test y = .ok false) :
    get_trend_order test y fuel 0 = .ok 0 := by
  cases fuel with
  | zero => omega
  | succ n =>
    unfold get_trend_order
    rw [show diffN 0 y = y from rfl, hstat]

theorem get_trend_order_error (test : List ℚ → Except PyErr Bool) (y : List ℚ)
    (e : PyErr) (d : Nat)
    (hpre : ∀ j, j < d → test (diffN j y) = .ok true)
    (herr : test (diffN d y) = .error e) :
    ∀ fuel order, order ≤ d → d - order < fuel →
      get_trend_order test y fuel order = .error e := by
  intro fuel
  induction fuel with
  | zero => intro order _ h2; omega
  | succ n ih =>
    intro order h1 h2
    unfold get_trend_order
    by_cases hod : order = d
    · rw [hod, herr]
    · rw [hpre order (by omega)]
      dsimp only
      exact ih (order + 1) (by omega) (by omega)

theorem predictAux_fitfail {M : Type} (ops : ArimaOps M)
    (hist : List (Nat × ℚ)) (tw : Option Nat) (y : List (Nat × ℚ)) (k : Nat)
    (e : PyErr) (hfail : ∀ mm ctx, ops.fitPredict mm ctx = .error e) :
    ∀ steps i r mm pred, r ≤ k → k - r < steps →
      predictAux ops (some hist) tw y k steps i (some mm) r pred = .error e := by
  intro steps
  induction steps with
  | zero => intro i r mm pred h1 h2; omega
  | succ n ih =>
    intro i r mm pred h1 h2
    by_cases hr : k ≤ r
    · simp only [predictAux, if_pos hr]
      rw [hfail mm (buildCtx hist tw y i)]
    · simp only [predictAux, if_neg hr]
      exact ih (i + 1) (r + 1) mm
        (setLoc (stepT y i) (ops.predictOne mm) pred) (by omega) (by omega)

theorem ctx_fst_lt (hist y : List (Nat × ℚ)) (tw : Option Nat)
    (hmono : List.Pairwise (fun (a b : Nat × ℚ) => a.1 < b.1) (hist ++ y))
    (i j : Nat) (hj : j < y.length) (hij : i - 1 ≤ j) :
    ∀ a ∈ buildCtx hist tw y i, a.1 < (y.get ⟨j, hj⟩).1 := by
  intro a ha
  obtain ⟨hh, hy, hcross⟩ := List.pairwise_append.mp hmono
  have hymem : y.get ⟨j, hj⟩ ∈ y := List.get_mem y j hj
  have hwin : ∀ b ∈ (match tw with
      | none => hist
      | some w => ilocLast w hist), b ∈ hist := by
    intro b hb
    cases tw with
    | none => exact hb
    | some w => exact ilocLast_subset w hist hb
  have hsplit : a ∈ (match tw with
      | none => hist
      | some w => ilocLast w hist) ∨ a ∈ y.take (i - 1) := by
    cases tw with
    | none => exact List.mem_append.mp ha
    | some w => exact List.mem_append.mp ha
  rcases hsplit with hw | ht
  · exact hcross a (hwin a hw) _ hymem
  · have hky := List.take_append_drop (i - 1) y
    have hy2 : List.Pairwise (fun (a b : Nat × ℚ) => a.1 < b.1)
        (y.take (i - 1) ++ y.drop (i - 1)) := by rw [hky]; exact hy
    obtain ⟨-, -, hcross2⟩ := List.pairwise_append.mp hy2
    have hdl : j - (i - 1) < (y.drop (i - 1)).length := by
      simp only [List.length_drop]
      omega
    have hget : (y.drop (i - 1))[j - (i - 1)] = y.get ⟨j, hj⟩ := by
      rw [List.getElem_drop]
      congr 1
      omega
    have hmem2 : y.get ⟨j, hj⟩ ∈ y.drop (i - 1) := by
      rw [← hget]
      exact List.getElem_mem hdl
    exact hcross2 a ht _ hmem2

theorem fit_ok_elim {M : Type} (autoArima : SearchArgs → Except PyErr M)
    (test : List ℚ → Except PyErr Bool) (fuel : Nat)
    (f0 : AutoARIMAForecast M) (yTrain : List (Nat × ℚ)) (vb : Bool)
    (f1 : AutoARIMAForecast M) (log : List SearchArgs)
    (h : AutoARIMAForecast.get_best_arima_model autoArima test fuel f0 yTrain vb
      = .ok (f1, log)) :
    ∃ d m, get_trend_order test (seriesValues yTrain) fuel 0 = .ok d ∧
      autoArima ⟨yTrain, d, f0.start_p, f0.start_q, f0.max_p, f0.max_q,
        f0.max_q + f0.max_p + d, vb⟩ = .ok m ∧
      f1 = { f0 with y_train := some yTrain, arima_model := some m } ∧
      log = [⟨yTrain, d, f0.start_p, f0.start_q, f0.max_p, f0.max_q,
        f0.max_q + f0.max_p + d, vb⟩] := by
  unfold AutoARIMAForecast.get_best_arima_model at h
  cases hgt : get_trend_order test (seriesValues yTrain) fuel 0 with
  | error e => rw [hgt] at h; exact absurd h (by simp)
  | ok d =>
    rw [hgt] at h
    dsimp only at h
    cases haa : autoArima ⟨yTrain, d, f0.start_p, f0.start_q, f0.max_p, f0.max_q,
        f0.max_q + f0.max_p + d, vb⟩ with
    | error e => rw [haa] at h; exact absurd h (by simp)
    | ok m =>
      rw [haa] at h
      dsimp only at h
      rw [Except.ok.injEq, Prod.mk.injEq] at h
      refine ⟨d, m, ?_, ?_, ?_, ?_⟩
      · rfl
      · exact haa
      · exact h.1.symm
      · exact h.2.symm

/-- C1: every retrain recorded at loop index `i` passes `fit_predict` exactly
the stored training history — all of it when `train_window` is unset, its
`iloc[-train_window:]` slice when set — concatenated with the out-of-sample
slice `[0, i-1)`; and with strictly increasing timestamps across training
and out-of-sample data, no out-of-sample point of index `≥ i - 1` (in
particular neither the value at `i` being predicted nor the one at `i - 1`)
occurs in that context. -/
theorem C1_retrain_context_no_lookahead {M : Type} (ops : ArimaOps M)
    (f : AutoARIMAForecast M) (yTrain y : List (Nat × ℚ)) (k : Nat)
    (tw : Option Nat) (f2 : AutoARIMAForecast M) (pred : List (Nat × Option ℚ))
    (tr : List (Nat × List (Nat × ℚ)))
    (hyt : f.y_train = some yTrain)
    (hmono : List.Pairwise (fun (a b : Nat × ℚ) => a.1 < b.1) (yTrain ++ y))
    (hok : AutoARIMAForecast.predict ops f y k tw = .ok (f2, pred, tr)) :
    ∀ p ∈ tr, p.2 = buildCtx yTrain tw y p.1 ∧
      ∀ (j : Nat) (hj : j < y.length), p.1 - 1 ≤ j → y.get ⟨j, hj⟩ ∉ p.2 := by
  obtain ⟨mf, haux, -⟩ := predict_ok_elim ops f y k tw f2 pred tr hok
  rw [hyt] at haux
  have htr : tr = traceSpec yTrain tw y k (y.length - 1) 1 0 :=
    predictAux_trace ops yTrain tw y k (y.length - 1) 1 f.arima_model 0
      (initPred y) (mf, pred, tr) haux
  intro p hp
  rw [htr] at hp
  obtain ⟨hctx, -, -⟩ := traceSpec_mem yTrain tw y k (y.length - 1) 1 0 p hp
  refine ⟨hctx, fun j hj hij hmem => ?_⟩
  rw [hctx] at hmem
  exact lt_irrefl _ (ctx_fst_lt yTrain y tw hmono p.1 j hj hij _ hmem)

/-- C1 witness: on a concrete run with history `[(0, 1)]` and the
three-point out-of-sample series `yEx`, the single retrain happens at loop
index 2 with context `[(0, 1), (10, 1)]`, and neither the point at index 1
(`(11, 2)`, the previous out-of-sample value) nor the point at index 2
(`(12, 3)`, the value being predicted) occurs in it. -/
theorem C1_witness :
    AutoARIMAForecast.predict ops0 fEx yEx 1 none =
      .ok (⟨0, 0, 5, 5, some 1, some [(0, 1)]⟩,
        [(10, none), (11, some 0), (12, some 2)], [(2, [(0, 1), (10, 1)])]) ∧
    ((11 : Nat), (2 : ℚ)) ∉ [((0 : Nat), (1 : ℚ)), (10, 1)] ∧
    ((12 : Nat), (3 : ℚ)) ∉ [((0 : Nat), (1 : ℚ)), (10, 1)] := by
  have hok : AutoARIMAForecast.predict ops0 fEx yEx 1 none =
      .ok (⟨0, 0, 5, 5, some 1, some [(0, 1)]⟩,
        [(10, none), (11, some 0), (12, some 2)], [(2, [(0, 1), (10, 1)])]) := rfl
  have h := C1_retrain_context_no_lookahead ops0 fEx [(0, 1)] yEx 1 none
    ⟨0, 0, 5, 5, some 1, some [(0, 1)]⟩
    [(10, none), (11, some 0), (12, some 2)] [(2, [(0, 1), (10, 1)])]
    rfl (by decide) hok (2, [(0, 1), (10, 1)]) (List.mem_singleton.mpr rfl)
  exact ⟨hok, h.2 1 (by decide) (by decide), h.2 2 (by decide) (by decide)⟩

/-- C2 (amended): the retrain counter starts at 0 and is checked before it
is incremented, so the first prediction step never retrains; retrains fall
exactly on 0-indexed prediction steps `k, 2k, 3k, ...` (loop indices
`k+1, 2k+1, ...`), giving `floor((n-1)/k)` retrains over the
`n = len(y) - 1` prediction steps — with `k = 1` that is `n - 1` retrains,
one on every step except the first. -/
theorem C2_retrain_schedule {M : Type} (ops : ArimaOps M)
    (f : AutoARIMAForecast M) (yTrain y : List (Nat × ℚ)) (k : Nat)
    (tw : Option Nat) (f2 : AutoARIMAForecast M) (pred : List (Nat × Option ℚ))
    (tr : List (Nat × List (Nat × ℚ)))
    (hyt : f.y_train = some yTrain) (hk : 1 ≤ k)
    (hok : AutoARIMAForecast.predict ops f y k tw = .ok (f2, pred, tr)) :
    tr.map Prod.fst =
      ((List.range (y.length - 1)).filter fun t => decide (t % k = 0 ∧ k ≤ t)).map
        (· + 1) ∧
    tr.length = (y.length - 2) / k := by
  obtain ⟨mf, haux, -⟩ := predict_ok_elim ops f y k tw f2 pred tr hok
  rw [hyt] at haux
  have htr : tr = traceSpec yTrain tw y k (y.length - 1) 1 0 :=
    predictAux_trace ops yTrain tw y k (y.length - 1) 1 f.arima_model 0
      (initPred y) (mf, pred, tr) haux
  have hcond : (fun t => decide ((t + 0) % k = 0 ∧ k ≤ t + 0)) =
      (fun t => decide (t % k = 0 ∧ k ≤ t)) := by
    funext t
    rw [Nat.add_zero]
  have hfst : tr.map Prod.fst =
      ((List.range (y.length - 1)).filter fun t => decide (t % k = 0 ∧ k ≤ t)).map
        (· + 1) := by
    rw [htr, traceSpec_map_fst yTrain tw y k hk (y.length - 1) 1 0 (by omega), hcond]
  refine ⟨hfst, ?_⟩
  have hlen : tr.length = (tr.map Prod.fst).length := (List.length_map tr Prod.fst).symm
  rw [hlen, hfst, List.length_map, length_filter_multiples k hk (y.length - 1)]
  congr 1

/-- C2 counterexample: with `retrain_freq = 1` and two prediction steps
(loop indices 1 and 2), the code retrains only at loop index 2 — the first
prediction step performs no retrain, refuting "every prediction step
triggers a retrain" (and hence the `ceil(n/k)`-at-steps-`0, k, ...`
schedule). -/
theorem C2_counterexample :
    (AutoARIMAForecast.predict ops0 fEx yEx 1 none).map
        (fun r => r.2.2.map Prod.fst) = .ok [2] ∧
    (1 : Nat) ∉ ([2] : List Nat) := ⟨rfl, by decide⟩

/-- C2 witness: the amended schedule evaluated on a concrete run over
`yEx` with `retrain_freq = 1`: one retrain, at loop index 2 = step 1
(0-indexed), and `floor((3-2)/1) = 1`. -/
theorem C2_witness :
    ([(2, [(0, 1), (10, 1)])] : List (Nat × List (Nat × ℚ))).map Prod.fst =
      ((List.range (yEx.length - 1)).filter fun t =>
        decide (t % 1 = 0 ∧ 1 ≤ t)).map (· + 1) ∧
    ([(2, [(0, 1), (10, 1)])] : List (Nat × List (Nat × ℚ))).length =
      (yEx.length - 2) / 1 :=
  C2_retrain_schedule ops0 fEx [(0, 1)] yEx 1 none
    ⟨0, 0, 5, 5, some 1, some [(0, 1)]⟩
    [(10, none), (11, some 0), (12, some 2)] [(2, [(0, 1), (10, 1)])]
    rfl (by decide) rfl

/-- C3 (amended): the returned prediction series is indexed by the full
out-of-sample index, not by its tail: it has one entry per out-of-sample
timestamp (length `len(y)`, not `len(y) - 1`), the entry at the first
timestamp is present but still NaN (`none`), and every entry from index 1
on carries a forecast value. -/
theorem C3_prediction_shape {M : Type} (ops : ArimaOps M)
    (f : AutoARIMAForecast M) (y : List (Nat × ℚ)) (k : Nat)
    (tw : Option Nat) (f2 : AutoARIMAForecast M) (pred : List (Nat × Option ℚ))
    (tr : List (Nat × List (Nat × ℚ)))
    (hmono : List.Pairwise (fun (a b : Nat × ℚ) => a.1 < b.1) y)
    (hok : AutoARIMAForecast.predict ops f y k tw = .ok (f2, pred, tr)) :
    pred.map Prod.fst = y.map Prod.fst ∧
    (∀ p0 : Nat × ℚ, y[0]? = some p0 → pred[0]? = some (p0.1, none)) ∧
    (∀ (j : Nat) (pj : Nat × ℚ), 1 ≤ j → y[j]? = some pj →
      ∃ w : ℚ, pred[j]? = some (pj.1, some w)) := by
  obtain ⟨mf, haux, -⟩ := predict_ok_elim ops f y k tw f2 pred tr hok
  obtain ⟨vs, hvslen, hshape⟩ := predictAux_pred_shape ops f.y_train tw y k
    (y.length - 1) 1 f.arima_model 0 (initPred y) (mf, pred, tr) haux
  dsimp only at hshape
  have hstepT : ∀ (s : Nat) (hs : s < y.length), stepT y s = (y[s]).1 := by
    intro s hs
    unfold stepT
    rw [List.getD_eq_getElem y (0, 0) hs]
  refine ⟨?_, ?_, ?_⟩
  · rw [hshape, applyLocs_map_fst, initPred_map_fst]
  · intro p0 hp0
    obtain ⟨h0lt, hp0e⟩ := List.getElem?_eq_some.mp hp0
    have hip : (initPred y)[0]? = some (p0.1, none) := by
      rw [initPred_getElem?, hp0]
      rfl
    rw [hshape]
    apply applyLocs_untouched _ _ _ _ hip
    intro tv htv hcon
    obtain ⟨s, hs, hst⟩ := List.mem_map.mp (List.of_mem_zip htv).1
    have hsr : s < y.length - 1 := List.mem_range.mp hs
    have h1s : 1 + s < y.length := by omega
    have hlt := List.pairwise_iff_getElem.mp hmono 0 (1 + s) h0lt h1s (by omega)
    rw [hstepT (1 + s) h1s] at hst
    rw [hp0e] at hlt
    rw [hst, hcon] at hlt
    exact lt_irrefl _ hlt
  · intro j pj hj1 hpj
    obtain ⟨hjlt, hpje⟩ := List.getElem?_eq_some.mp hpj
    have hip : (initPred y)[j]? = some (pj.1, none) := by
      rw [initPred_getElem?, hpj]
      rfl
    have hj1lt : j - 1 < y.length - 1 := by omega
    have htsj : ((List.range (y.length - 1)).map fun s => stepT y (1 + s))[j-1]?
        = some (stepT y (1 + (j - 1))) := by
      rw [List.getElem?_map, List.getElem?_range hj1lt]
      rfl
    have hvj : j - 1 < vs.length := by rw [hvslen]; omega
    have hzip : (((List.range (y.length - 1)).map fun s => stepT y (1 + s)).zip
        vs)[j-1]? = some (stepT y (1 + (j - 1)), vs[j-1]) := by
      rw [List.getElem?_zip_eq_some]
      exact ⟨htsj, List.getElem?_eq_getElem hvj⟩
    have hmem : (stepT y (1 + (j - 1)), vs[j-1]) ∈
        ((List.range (y.length - 1)).map fun s => stepT y (1 + s)).zip vs := by
      obtain ⟨hlt2, he⟩ := List.getElem?_eq_some.mp hzip
      rw [← he]
      exact List.getElem_mem hlt2
    have hfst1 : (stepT y (1 + (j - 1)), vs[j-1]).1 = pj.1 := by
      show stepT y (1 + (j - 1)) = pj.1
      rw [show 1 + (j - 1) = j from by omega, hstepT j hjlt, hpje]
    rw [hshape]
    exact applyLocs_assigned _ _ _ _ hip ⟨_, hmem, hfst1⟩

/-- C3 counterexample: for a two-point out-of-sample series the returned
prediction has two entries, the first out-of-sample timestamp among them
(holding NaN), so its length is `len(y)`, not `len(y) - 1 = 1`, and its
timestamps are not exactly `y[1:]`. -/
theorem C3_counterexample :
    (AutoARIMAForecast.predict ops0 fEx [(10, 1), (11, 2)] 1 none).map
        (fun r => r.2.1) = .ok [(10, none), (11, some 0)] ∧
    ([(10, none), (11, some 0)] : List (Nat × Option ℚ)).length ≠ 2 - 1 :=
  ⟨rfl, by decide⟩

/-- C3 witness: the shape theorem evaluated on a concrete run over `yEx`:
timestamps preserved, entry 0 still NaN, entry 1 assigned. -/
theorem C3_witness :
    ([(10, none), (11, some 0), (12, some 2)] : List (Nat × Option ℚ)).map
        Prod.fst = yEx.map Prod.fst ∧
    ([(10, none), (11, some 0), (12, some 2)] : List (Nat × Option ℚ))[0]?
      = some (10, none) ∧
    (([(10, none), (11, some 0), (12, some 2)] : List (Nat × Option ℚ))[1]?).map
        (fun p => p.2.isSome) = some true := by
  obtain ⟨h1, h2, h3⟩ := C3_prediction_shape ops0 fEx yEx 1 none
    ⟨0, 0, 5, 5, some 1, some [(0, 1)]⟩
    [(10, none), (11, some 0), (12, some 2)] [(2, [(0, 1), (10, 1)])]
    (by decide) rfl
  obtain ⟨w, hw⟩ := h3 1 (11, 2) (by decide) rfl
  refine ⟨h1, h2 (10, 1) rfl, ?_⟩
  rw [hw]
  rfl

/-- C4: whenever `get_trend_order` returns an order `d`, the series
differenced `d` times passes the stationarity test (the test reports no
further differencing), every smaller order does not pass, and a series the
test already classifies stationary yields `d = 0` — the `order = 0` round
tests the undifferenced series itself (`diffN 0 y = y`), so no differencing
is performed. -/
theorem C4_minimal_difference_order (test : List ℚ → Except PyErr Bool)
    (y : List ℚ) (fuel d : Nat)
    (hok : get_trend_order test y fuel 0 = .ok d) :
    test (diffN d y) = .ok false ∧
    (∀ e, e < d → test (diffN e y) = .ok true) ∧
    (test y = .ok false → d = 0) := by
  obtain ⟨-, h2, h3⟩ := get_trend_order_ok test y fuel 0 d hok
  refine ⟨h2, fun e he => h3 e (by omega) he, fun hstat => ?_⟩
  by_contra hd0
  have h4 := h3 0 (by omega) (by omega)
  rw [show diffN 0 y = y from rfl, hstat] at h4
  exact absurd h4 (by simp)

/-- C4 witness: with the test "difference while at least three points
remain" on the series `[1, 2, 4]`, `get_trend_order` returns 1; the once-
differenced series passes, the undifferenced one does not. -/
theorem C4_witness :
    get_trend_order testW [1, 2, 4] 5 0 = .ok 1 ∧
    testW (diffN 1 [1, 2, 4]) = .ok false ∧
    testW (diffN 0 [1, 2, 4]) = .ok true := by
  have h : get_trend_order testW [1, 2, 4] 5 0 = .ok 1 := rfl
  obtain ⟨ha, hb, -⟩ := C4_minimal_difference_order testW [1, 2, 4] 5 1 h
  exact ⟨h, ha, hb 0 (by omega)⟩

/-- C5 (amended): `predict` performs no input validation at all.  With
fewer than two out-of-sample points the loop body never runs, so whatever
the forecaster state (even never fitted), retrain frequency (even 0) or
window, the call silently returns the all-NaN prediction, no retrain, and
the forecaster unchanged.  Called before a successful fit with at least two
points, it fails with `AttributeError` — a crash at the first use of the
`None` model inside the loop, not an eager input-validation error. -/
theorem C5_no_validation {M : Type} (ops : ArimaOps M)
    (f : AutoARIMAForecast M) (y : List (Nat × ℚ)) (k : Nat)
    (tw : Option Nat) :
    (y.length ≤ 1 →
      AutoARIMAForecast.predict ops f y k tw = .ok (f, initPred y, [])) ∧
    (f.arima_model = none → 2 ≤ y.length →
      AutoARIMAForecast.predict ops f y k tw = .error .attributeError) := by
  constructor
  · intro hy
    unfold AutoARIMAForecast.predict
    rw [show y.length - 1 = 0 from by omega]
    rfl
  · intro hm hy
    obtain ⟨s, hs⟩ : ∃ s, y.length - 1 = s + 1 := ⟨y.length - 2, by omega⟩
    have hstep : predictAux ops f.y_train tw y k (s + 1) 1 none 0 (initPred y)
        = .error .attributeError := by
      simp only [predictAux]
      by_cases hk : k ≤ 0
      · rw [if_pos hk]
      · rw [if_neg hk]
    unfold AutoARIMAForecast.predict
    rw [hs, hm, hstep]

/-- C5 counterexample: called before any fit, `predict` on a one-point
out-of-sample series silently succeeds (no input error, no crash — the
claim says it must fail), and on a two-point series it crashes with
`AttributeError` rather than raising an eager input-validation error. -/
theorem C5_counterexample :
    AutoARIMAForecast.predict ops0 (AutoARIMAForecast.init Nat 0 0 5 5)
        [(5, 1)] 1 none
      = .ok (AutoARIMAForecast.init Nat 0 0 5 5, [(5, none)], []) ∧
    AutoARIMAForecast.predict ops0 (AutoARIMAForecast.init Nat 0 0 5 5)
        [(5, 1), (6, 2)] 1 none = .error .attributeError := ⟨rfl, rfl⟩

/-- C5 witness: the no-validation theorem applied to concrete calls — a
fitted forecaster on a one-point series (whatever frequency and window),
and an unfitted one on a two-point series. -/
theorem C5_witness :
    AutoARIMAForecast.predict ops0 fEx [(7, 1)] 3 (some 2)
      = .ok (fEx, initPred [(7, 1)], []) ∧
    AutoARIMAForecast.predict ops0 (AutoARIMAForecast.init Nat 0 0 5 5)
        [(5, 1), (6, 2)] 2 none = .error .attributeError :=
  ⟨(C5_no_validation ops0 fEx [(7, 1)] 3 (some 2)).1 (by decide),
    (C5_no_validation ops0 (AutoARIMAForecast.init Nat 0 0 5 5)
      [(5, 1), (6, 2)] 2 none).2 rfl (by decide)⟩

/-- C6: a refit failure at a retrain step is fatal to the whole `predict`
call: with a fitter whose refit raises `e` and enough steps for the retrain
counter to reach the threshold, `predict` returns exactly `.error e` — no
prediction series, neither for the already-computed steps nor the rest. -/
theorem C6_refit_failure_fatal {M : Type} (ops : ArimaOps M)
    (f : AutoARIMAForecast M) (yTrain y : List (Nat × ℚ)) (k : Nat)
    (tw : Option Nat) (m0 : M) (e : PyErr)
    (hyt : f.y_train = some yTrain) (hm : f.arima_model = some m0)
    (hfail : ∀ mm ctx, ops.fitPredict mm ctx = .error e)
    (hk : 1 ≤ k) (hlen : k + 2 ≤ y.length) :
    AutoARIMAForecast.predict ops f y k tw = .error e := by
  unfold AutoARIMAForecast.predict
  rw [hyt, hm]
  rw [predictAux_fitfail ops yTrain tw y k e hfail (y.length - 1) 1 0 m0
    (initPred y) (by omega) (by omega)]

/-- C6 witness: with the always-failing fitter `opsE` on the fitted
forecaster `fEx` and the three-point series `yEx`, `predict` propagates the
fit error and returns nothing else. -/
theorem C6_witness :
    AutoARIMAForecast.predict opsE fEx yEx 1 none = .error (.fitError 7) :=
  C6_refit_failure_fatal opsE fEx [(0, 1)] yEx 1 none 0 (.fitError 7)
    rfl rfl (fun mm ctx => rfl) (by decide) (by decide)

/-- C7: if the stationarity test raises on the `d`-times differenced series
after telling every smaller order to keep differencing, that error
propagates uncaught out of `get_trend_order` and out of
`get_best_arima_model`: no difference order is produced and no model or
history is stored. -/
theorem C7_test_error_propagates {M : Type}
    (autoArima : SearchArgs → Except PyErr M)
    (test : List ℚ → Except PyErr Bool) (yv : List ℚ) (e : PyErr)
    (d fuel : Nat)
    (hpre : ∀ j, j < d → test (diffN j yv) = .ok true)
    (herr : test (diffN d yv) = .error e) (hfuel : d < fuel) :
    get_trend_order test yv fuel 0 = .error e ∧
    ∀ (f : AutoARIMAForecast M) (yT : List (Nat × ℚ)) (vb : Bool),
      seriesValues yT = yv →
      AutoARIMAForecast.get_best_arima_model autoArima test fuel f yT vb
        = .error e := by
  have h1 := get_trend_order_error test yv e d hpre herr fuel 0 (by omega)
    (by omega)
  refine ⟨h1, fun f yT vb hval => ?_⟩
  unfold AutoARIMAForecast.get_best_arima_model
  rw [hval, h1]

/-- C7 witness: the test `testE` raises on the once-differenced series
`[1, 2]`; the error surfaces from `get_trend_order` and from a fit on the
training series `[(0,1), (1,2), (2,4)]`. -/
theorem C7_witness :
    get_trend_order testE [1, 2, 4] 5 0 = .error (.statTestError 3) ∧
    AutoARIMAForecast.get_best_arima_model autoW testE 5
        (AutoARIMAForecast.init Nat 0 0 5 5) yTrW false
      = .error (.statTestError 3) := by
  obtain ⟨h1, h2⟩ := C7_test_error_propagates autoW testE [1, 2, 4]
    (.statTestError 3) 1 5
    (fun j hj => by interval_cases j; rfl) rfl (by omega)
  exact ⟨h1, h2 (AutoARIMAForecast.init Nat 0 0 5 5) yTrW false rfl⟩

/-- C8: a successful fit stores the supplied training series (a value-equal
copy) as the forecaster's history, and `predict` never changes it: any
successful `predict` returns a forecaster carrying the same history, and
every retrain context is a fresh concatenation built from that history by
`buildCtx`. -/
theorem C8_history_immutable {M : Type}
    (autoArima : SearchArgs → Except PyErr M)
    (test : List ℚ → Except PyErr Bool) (fuel : Nat)
    (f0 f1 : AutoARIMAForecast M) (yTrain : List (Nat × ℚ)) (vb : Bool)
    (log : List SearchArgs)
    (hfit : AutoARIMAForecast.get_best_arima_model autoArima test fuel f0
      yTrain vb = .ok (f1, log)) :
    f1.y_train = some yTrain ∧
    ∀ (ops : ArimaOps M) (y : List (Nat × ℚ)) (k : Nat) (tw : Option Nat)
      (f2 : AutoARIMAForecast M) (pred : List (Nat × Option ℚ))
      (tr : List (Nat × List (Nat × ℚ))),
      AutoARIMAForecast.predict ops f1 y k tw = .ok (f2, pred, tr) →
      f2.y_train = some yTrain ∧ ∀ p ∈ tr, p.2 = buildCtx yTrain tw y p.1 := by
  obtain ⟨d, m, -, -, hf1, -⟩ :=
    fit_ok_elim autoArima test fuel f0 yTrain vb f1 log hfit
  have hyt : f1.y_train = some yTrain := by rw [hf1]
  refine ⟨hyt, fun ops y k tw f2 pred tr hok => ?_⟩
  obtain ⟨mf, haux, hf2⟩ := predict_ok_elim ops f1 y k tw f2 pred tr hok
  constructor
  · rw [hf2]
    exact hyt
  · rw [hyt] at haux
    have htr : tr = traceSpec yTrain tw y k (y.length - 1) 1 0 :=
      predictAux_trace ops yTrain tw y k (y.length - 1) 1 f1.arima_model 0
        (initPred y) (mf, pred, tr) haux
    intro p hp
    rw [htr] at hp
    exact (traceSpec_mem yTrain tw y k (y.length - 1) 1 0 p hp).1

/-- C8 witness: after a concrete fit on `yTrW` and a concrete predict over
`yEx`, the fitted and the returned forecaster both carry `yTrW` as history,
and the one retrain context is exactly `yTrW ++ yEx[:1]`. -/
theorem C8_witness :
    (⟨0, 0, 5, 5, some 1, some yTrW⟩ : AutoARIMAForecast Nat).y_train
      = some yTrW ∧
    (⟨0, 0, 5, 5, some 2, some yTrW⟩ : AutoARIMAForecast Nat).y_train
      = some yTrW ∧
    [((0 : Nat), (1 : ℚ)), (1, 2), (2, 4), (10, 1)]
      = buildCtx yTrW none yEx 2 := by
  have hfit : AutoARIMAForecast.get_best_arima_model autoW testW 5
      (AutoARIMAForecast.init Nat 0 0 5 5) yTrW false
    = .ok (⟨0, 0, 5, 5, some 1, some yTrW⟩,
        [⟨yTrW, 1, 0, 0, 5, 5, 11, false⟩]) := rfl
  obtain ⟨h1, h2⟩ := C8_history_immutable autoW testW 5
    (AutoARIMAForecast.init Nat 0 0 5 5) ⟨0, 0, 5, 5, some 1, some yTrW⟩
    yTrW false [⟨yTrW, 1, 0, 0, 5, 5, 11, false⟩] hfit
  obtain ⟨h3, h4⟩ := h2 ops0 yEx 1 none ⟨0, 0, 5, 5, some 2, some yTrW⟩
    [(10, none), (11, some 1), (12, some 4)]
    [(2, [(0, 1), (1, 2), (2, 4), (10, 1)])] rfl
  exact ⟨h1, h3,
    h4 (2, [(0, 1), (1, 2), (2, 4), (10, 1)]) (List.mem_singleton.mpr rfl)⟩

/-- C9: a successful fit makes exactly one order-search call, with the
training series, the detected difference order `d`, the configured
`start_p` and `start_q`, the configured `max_p` and `max_q`, and the
combined-order cap `max_p + max_q + d`. -/
theorem C9_single_search_call {M : Type}
    (autoArima : SearchArgs → Except PyErr M)
    (test : List ℚ → Except PyErr Bool) (fuel : Nat)
    (f0 f1 : AutoARIMAForecast M) (yTrain : List (Nat × ℚ)) (vb : Bool)
    (log : List SearchArgs)
    (hfit : AutoARIMAForecast.get_best_arima_model autoArima test fuel f0
      yTrain vb = .ok (f1, log)) :
    ∃ d, get_trend_order test (seriesValues yTrain) fuel 0 = .ok d ∧
      log = [⟨yTrain, d, f0.start_p, f0.start_q, f0.max_p, f0.max_q,
        f0.max_p + f0.max_q + d, vb⟩] := by
  obtain ⟨d, m, h1, -, -, h4⟩ :=
    fit_ok_elim autoArima test fuel f0 yTrain vb f1 log hfit
  refine ⟨d, h1, ?_⟩
  rw [h4, show f0.max_q + f0.max_p + d = f0.max_p + f0.max_q + d from by omega]

/-- C9 witness: a concrete fit on `yTrW` makes exactly the one search
call `⟨yTrW, 1, 0, 0, 5, 5, 5 + 5 + 1, false⟩`. -/
theorem C9_witness :
    get_trend_order testW (seriesValues yTrW) 5 0 = .ok 1 ∧
    ([(⟨yTrW, 1, 0, 0, 5, 5, 11, false⟩ : SearchArgs)])
      = [(⟨yTrW, 1, 0, 0, 5, 5, 5 + 5 + 1, false⟩ : SearchArgs)] := by
  have hfit : AutoARIMAForecast.get_best_arima_model autoW testW 5
      (AutoARIMAForecast.init Nat 0 0 5 5) yTrW false
    = .ok (⟨0, 0, 5, 5, some 1, some yTrW⟩,
        [⟨yTrW, 1, 0, 0, 5, 5, 11, false⟩]) := rfl
  obtain ⟨d, hd, hlog⟩ := C9_single_search_call autoW testW 5
    (AutoARIMAForecast.init Nat 0 0 5 5) ⟨0, 0, 5, 5, some 1, some yTrW⟩
    yTrW false [⟨yTrW, 1, 0, 0, 5, 5, 11, false⟩] hfit
  have hd1 : get_trend_order testW (seriesValues yTrW) 5 0 = .ok 1 := rfl
  have hde : d = 1 := by
    have h5 := hd.symm.trans hd1
    injection h5
  rw [hde] at hlog
  exact ⟨hd1, hlog⟩

/-- C10: a `train_window` larger than the stored history clamps silently:
`iloc[-train_window:]` yields the whole history, so every retrain context
is the full history followed by the out-of-sample slice, with no failure
and no padding. -/
theorem C10_oversized_window_clamps {M : Type} (ops : ArimaOps M)
    (f : AutoARIMAForecast M) (yTrain y : List (Nat × ℚ)) (k w : Nat)
    (f2 : AutoARIMAForecast M) (pred : List (Nat × Option ℚ))
    (tr : List (Nat × List (Nat × ℚ)))
    (hyt : f.y_train = some yTrain) (hw : yTrain.length < w)
    (hok : AutoARIMAForecast.predict ops f y k (some w) = .ok (f2, pred, tr)) :
    ∀ p ∈ tr, p.2 = yTrain ++ y.take (p.1 - 1) := by
  obtain ⟨mf, haux, -⟩ := predict_ok_elim ops f y k (some w) f2 pred tr hok
  rw [hyt] at haux
  have htr : tr = traceSpec yTrain (some w) y k (y.length - 1) 1 0 :=
    predictAux_trace ops yTrain (some w) y k (y.length - 1) 1 f.arima_model 0
      (initPred y) (mf, pred, tr) haux
  intro p hp
  rw [htr] at hp
  have hctx := (traceSpec_mem yTrain (some w) y k (y.length - 1) 1 0 p hp).1
  rw [hctx]
  show ilocLast w yTrain ++ y.take (p.1 - 1) = yTrain ++ y.take (p.1 - 1)
  rw [ilocLast_of_le w yTrain (by omega)]

/-- C10 witness: `train_window = 5` against the one-point history of `fEx`
clamps — the retrain context at loop index 2 is the full history plus
`yEx[:1]`, and the call succeeds. -/
theorem C10_witness :
    AutoARIMAForecast.predict ops0 fEx yEx 1 (some 5)
      = .ok (⟨0, 0, 5, 5, some 1, some [(0, 1)]⟩,
        [(10, none), (11, some 0), (12, some 2)],
        [(2, [(0, 1), (10, 1)])]) ∧
    [((0 : Nat), (1 : ℚ)), (10, 1)] = [((0 : Nat), (1 : ℚ))] ++ yEx.take 1 :=
  ⟨rfl, C10_oversized_window_clamps ops0 fEx [(0, 1)] yEx 1 5
    ⟨0, 0, 5, 5, some 1, some [(0, 1)]⟩
    [(10, none), (11, some 0), (12, some 2)] [(2, [(0, 1), (10, 1)])]
    rfl (by decide) rfl (2, [(0, 1), (10, 1)]) (List.mem_singleton.mpr rfl)⟩
